import Mathlib

/-!
GoSCASS: the scan-and-report pipeline of `goscass.go`.

A shallow embedding of the sequential parts of `goscass.go`:

* `preparePatterns` (pattern compilation, lines 179-205),
* `searchFile` (per-file line scan with context window, lines 207-255),
* the context loop of `writeMatches` (lines 293-303),
* `isFileType` and the walk callback of `main` (lines 87-113, 338-346).

Go's `int` (64 bits on the usual platforms) is modelled as `Int` with explicit
two's-complement wrapping (`wrap64`) at every arithmetic operation of the source;
`9223372036854775808` is `2^63`.  A value of type `int`, such as the context
width, lies in `[-2^63, 2^63)`, and so does the length of a slice.  A compiled
regular expression is modelled by its `MatchString` predicate on a line.  A slice
expression `lines[start:end]` panics unless `0 ≤ start ≤ end ≤ cap(lines)`; the
panic is modelled explicitly, and a panic ends the run.
-/

set_option autoImplicit false
set_option linter.unusedVariables false

namespace GoSCASS

/-! ## Machine integers -/

/-- Two's-complement wrap of an integer into the range of Go's 64-bit `int`. -/
def wrap64 (x : Int) : Int :=
  (x + 9223372036854775808) % 18446744073709551616 - 9223372036854775808

/-! ## Data model -/

/-- The `Match` struct (lines 24-29). -/
structure Match where
  FilePath : String
  LineNum : Int
  Line : String
  Context : List String
deriving DecidableEq

/-- A compiled pattern, seen through `(*regexp.Regexp).MatchString`. -/
abbrev Pattern := String → Bool

/-! ## searchFile -/

/-- Lines 235-238: `start := i - contextLines; if start < 0 { start = 0 }`. -/
def windowStart (i : Nat) (contextLines : Int) : Int :=
  let start := wrap64 ((i : Int) - contextLines)
  if start < 0 then 0 else start

/-- Lines 239-242: `end := i + contextLines + 1; if end > len(lines) { end = len(lines) }`. -/
def windowEnd (n : Nat) (i : Nat) (contextLines : Int) : Int :=
  let e := wrap64 (wrap64 ((i : Int) + contextLines) + 1)
  if e > (n : Int) then (n : Int) else e

/-- The slice expression `lines[lo:hi]`: `none` is the run-time panic
"slice bounds out of range".  Go checks `0 ≤ lo ≤ hi ≤ cap(lines)`; at the only
call site `hi` has already been clamped to `len(lines) ≤ cap(lines)`, so the
check against the length decides the same inputs. -/
def sliceLines (lines : List String) (lo hi : Int) : Option (List String) :=
  if 0 ≤ lo ∧ lo ≤ hi ∧ hi ≤ (lines.length : Int) then
    some ((lines.drop lo.toNat).take (hi.toNat - lo.toNat))
  else none

/-- Lines 234-243: the context window of the matching line with 0-based index `i`. -/
def contextWindow (lines : List String) (i : Nat) (contextLines : Int) : Option (List String) :=
  sliceLines lines (windowStart i contextLines) (windowEnd lines.length i contextLines)

/-- What the inner loop over the patterns does with one line. -/
inductive LineResult where
  | noMatch
  | sent (m : Match)
  | panicked
deriving DecidableEq

/-- Lines 230-253: the inner loop `for _, re := range patterns`.  The first
pattern that matches sends one `Match` and breaks out of the loop. -/
def scanPatterns (path : String) (lines : List String) (contextLines : Int) (i : Nat)
    (line : String) : List Pattern → LineResult
  | [] => LineResult.noMatch
  | re :: rest =>
    if re line then
      match contextWindow lines i contextLines with
      | none => LineResult.panicked
      | some context =>
        LineResult.sent { FilePath := path, LineNum := (i : Int) + 1, Line := line, Context := context }
    else scanPatterns path lines contextLines i line rest

/-- The observable result of one `searchFile` call: the matches sent on the
channel, in order, and whether the call ended in a panic. -/
structure Run where
  emitted : List Match
  panicked : Bool
deriving DecidableEq

/-- Lines 229-254: the outer loop `for i, line := range lines`, from index `i`
over the remaining lines `rest`. -/
def scanLines (path : String) (patterns : List Pattern) (lines : List String)
    (contextLines : Int) : Nat → List String → Run
  | _, [] => { emitted := [], panicked := false }
  | i, line :: rest =>
    match scanPatterns path lines contextLines i line patterns with
    | LineResult.noMatch => scanLines path patterns lines contextLines (i + 1) rest
    | LineResult.sent m =>
      let r := scanLines path patterns lines contextLines (i + 1) rest
      { emitted := m :: r.emitted, panicked := r.panicked }
    | LineResult.panicked => { emitted := [], panicked := true }

/-- The function `searchFile` (lines 207-255).  `file` is the result of opening
and reading the file: `none` when `os.Open` or the scanner fails (the function
returns without sending anything), `some lines` otherwise. -/
def searchFile (path : String) (file : Option (List String)) (patterns : List Pattern)
    (caseSensitive : Bool) (contextLines : Int) : Run :=
  match file with
  | none => { emitted := [], panicked := false }
  | some lines => scanLines path patterns lines contextLines 0 lines

/-! ## writeMatches -/

/-- One context line as `writeMatches` prints it with
`fmt.Sprintf("%s%5d: %s\n", pfx, ctxLineNum, ctxLine)`. -/
structure Row where
  pfx : String
  num : Int
  text : String
deriving DecidableEq

/-- Lines 294-302: the body of the context loop for index `i`. -/
def contextRow (lineNum : Int) (ctxLen : Nat) (i : Nat) (ctxLine : String) : Row :=
  let ctxLineNum := wrap64 (wrap64 (lineNum - (ctxLen : Int) / 2) + (i : Int))
  let ctxLineNum := if ctxLineNum < 1 then 1 else ctxLineNum
  let pfx := if ctxLineNum = lineNum then ">>  " else "    "
  { pfx := pfx, num := ctxLineNum, text := ctxLine }

/-- Lines 293-303: the loop `for i, ctxLine := range match.Context`, from index `i`. -/
def writeContext (lineNum : Int) (ctxLen : Nat) : Nat → List String → List Row
  | _, [] => []
  | i, ctxLine :: rest => contextRow lineNum ctxLen i ctxLine :: writeContext lineNum ctxLen (i + 1) rest

/-- The context rows `writeMatches` prints for one match. -/
def contextRows (m : Match) : List Row :=
  writeContext m.LineNum m.Context.length 0 m.Context


/-! ## preparePatterns -/

/-- Lines 182-202: the body of the loop over `words`.  `compile` stands for
`regexp.Compile` (`none` is a non-nil error) and `quoteMeta` for
`regexp.QuoteMeta`; both belong to Go's standard library. -/
def preparePatternsStep {R : Type} (compile : String → Option R) (quoteMeta : String → String)
    (caseSensitive useRegex : Bool) (patterns : List R) (word : String) : List R :=
  let pattern := if useRegex then word else quoteMeta word
  let compiled := if caseSensitive then compile pattern else compile ("(?i)" ++ pattern)
  match compiled with
  | none => patterns
  | some re => patterns ++ [re]

/-- The function `preparePatterns` (lines 179-205): `patterns` starts empty and is
threaded through the loop over `words`. -/
def preparePatterns {R : Type} (compile : String → Option R) (quoteMeta : String → String)
    (words : List String) (caseSensitive useRegex : Bool) : List R :=
  words.foldl (preparePatternsStep compile quoteMeta caseSensitive useRegex) []

/-! ## isFileType and the walk callback -/

/-- The loop of `filepath.Ext` (Go standard library, Unix separator), run over the
path read backwards: `acc` is the part of the path already passed.
`for i := len(path) - 1; i >= 0 && !os.IsPathSeparator(path[i]); i--
 { if path[i] == '.' { return path[i:] } }; return ""`.
The bytes `.` and `/` never occur inside a multi-byte UTF-8 sequence, so scanning
characters finds the same position as scanning bytes. -/
def extLoop : List Char → List Char → List Char
  | [], _ => []
  | ch :: before, acc =>
    if ch = '/' then []
    else if ch = '.' then '.' :: acc
    else extLoop before (ch :: acc)

/-- The function `filepath.Ext`. -/
def Ext (path : String) : String :=
  String.mk (extLoop path.data.reverse [])

/-- Lines 340-345: the loop `for _, t := range types` of `isFileType`. -/
def isFileTypeLoop (ext : String) : List String → Bool
  | [] => false
  | t :: rest => if ext = t then true else isFileTypeLoop ext rest

/-- The function `isFileType` (lines 338-346). -/
def isFileType (path : String) (types : List String) : Bool :=
  isFileTypeLoop (Ext path) types

/-- What the walk callback of `main` does with one path. -/
inductive WalkAction where
  | abort
  | skip
  | launch
deriving DecidableEq

/-- The callback passed to `filepath.Walk` (lines 87-113).  `walkErr` says whether
the callback was handed a non-nil `err`, `isDir` is `info.IsDir()`; `launch` is
the path on which a `searchFile` goroutine is started. -/
def walkFn (fileTypes : List String) (path : String) (isDir : Bool) (walkErr : Bool) : WalkAction :=
  if walkErr then WalkAction.abort
  else if isDir then WalkAction.skip
  else if fileTypes.length > 0 then
    if !isFileType path fileTypes then WalkAction.skip else WalkAction.launch
  else WalkAction.launch

/-! ## Sample patterns -/

/-- A sample compiled pattern: the case-sensitive literal search for `term`, the
predicate of `regexp.MustCompile(regexp.QuoteMeta(term)).MatchString`. -/
def literalPattern (term : String) : Pattern :=
  fun line => decide (term.data <:+: line.data)

/-! ## Lemmas on machine arithmetic and the window -/

theorem wrap64_of_inRange (x : Int) (h1 : -9223372036854775808 ≤ x)
    (h2 : x < 9223372036854775808) : wrap64 x = x := by
  unfold wrap64; omega

/-- For a non-negative width the slice succeeds exactly when `i + c + 1` does not
overflow, and then it is the window clipped at both file edges. -/
theorem contextWindow_of_nonneg (lines : List String) (i : Nat) (c : Int)
    (hN : (lines.length : Int) < 9223372036854775808) (hi : i < lines.length)
    (hc0 : 0 ≤ c) (hc : c < 9223372036854775808) :
    contextWindow lines i c =
      if (i : Int) + c + 1 < 9223372036854775808 then
        some ((lines.drop (i - min c.toNat i)).take
          (min c.toNat i + 1 + min c.toNat (lines.length - 1 - i)))
      else none := by
  unfold contextWindow sliceLines windowStart windowEnd
  by_cases hov : (i : Int) + c + 1 < 9223372036854775808
  · rw [if_pos hov, wrap64_of_inRange ((i : Int) - c) (by omega) (by omega),
      wrap64_of_inRange ((i : Int) + c) (by omega) (by omega),
      wrap64_of_inRange ((i : Int) + c + 1) (by omega) (by omega)]
    simp only []
    rw [if_pos (by split_ifs <;> omega)]
    have hlo : (if (i : Int) - c < 0 then (0 : Int) else (i : Int) - c).toNat
        = i - min c.toNat i := by split_ifs <;> omega
    have hhi : (if (i : Int) + c + 1 > (lines.length : Int) then (lines.length : Int)
        else (i : Int) + c + 1).toNat - (i - min c.toNat i)
        = min c.toNat i + 1 + min c.toNat (lines.length - 1 - i) := by split_ifs <;> omega
    rw [hlo, hhi]
  · rw [if_neg hov]
    have he : wrap64 (wrap64 ((i : Int) + c) + 1) < 0 := by unfold wrap64; omega
    have hs : 0 ≤ (if wrap64 ((i : Int) - c) < 0 then (0 : Int) else wrap64 ((i : Int) - c)) := by
      split_ifs <;> omega
    simp only []
    rw [if_neg]
    split_ifs <;> omega

theorem scanPatterns_eq (path : String) (lines : List String) (c : Int) (i : Nat)
    (line : String) (patterns : List Pattern) :
    scanPatterns path lines c i line patterns =
      if patterns.any (fun re => re line) then
        match contextWindow lines i c with
        | none => LineResult.panicked
        | some context =>
          LineResult.sent { FilePath := path, LineNum := (i : Int) + 1, Line := line, Context := context }
      else LineResult.noMatch := by
  induction patterns with
  | nil => simp [scanPatterns]
  | cons re rest ih =>
    by_cases h : re line = true
    · simp [scanPatterns, h]
    · simp [scanPatterns, h, ih]

theorem drop_cons_facts (lines rest : List String) (line : String) (i : Nat)
    (h : lines.drop i = line :: rest) :
    i < lines.length ∧ lines[i]? = some line ∧ lines.drop (i + 1) = rest := by
  have hlt : i < lines.length := by
    by_contra hge
    rw [List.drop_eq_nil_of_le (by omega)] at h
    cases h
  refine ⟨hlt, ?_, ?_⟩
  · have := List.drop_eq_getElem_cons hlt
    rw [this] at h
    rw [List.getElem?_eq_getElem hlt]
    exact congrArg some (List.cons.inj h).1
  · have := List.drop_eq_getElem_cons hlt
    rw [this] at h
    exact (List.cons.inj h).2

/-- Every match sent by the outer loop comes from a line that some pattern
matches, carries that line's 1-based number and text, and the slice that gave
its context did not panic. -/
theorem scanLines_mem (path : String) (patterns : List Pattern) (lines : List String)
    (c : Int) (m : Match) :
    ∀ (rest : List String) (i : Nat), lines.drop i = rest →
      m ∈ (scanLines path patterns lines c i rest).emitted →
      ∃ j : Nat, i ≤ j ∧ j < lines.length ∧ lines[j]? = some m.Line ∧
        m.LineNum = (j : Int) + 1 ∧ contextWindow lines j c = some m.Context ∧
        patterns.any (fun re => re m.Line) = true ∧ m.FilePath = path := by
  intro rest
  induction rest with
  | nil => intro i _ hm; simp [scanLines] at hm
  | cons line rest ih =>
    intro i hdrop hm
    obtain ⟨hlt, hget, hdrop'⟩ := drop_cons_facts lines rest line i hdrop
    unfold scanLines at hm
    rw [scanPatterns_eq] at hm
    by_cases hany : patterns.any (fun re => re line) = true
    · rw [if_pos hany] at hm
      cases hw : contextWindow lines i c with
      | none => rw [hw] at hm; simp at hm
      | some ctx =>
        rw [hw] at hm
        simp only [List.mem_cons] at hm
        rcases hm with hm | hm
        · subst hm
          exact ⟨i, le_refl _, hlt, hget, rfl, hw, hany, rfl⟩
        · obtain ⟨j, hj, rest'⟩ := ih (i + 1) hdrop' hm
          exact ⟨j, by omega, rest'⟩
    · rw [if_neg hany] at hm
      obtain ⟨j, hj, rest'⟩ := ih (i + 1) hdrop' hm
      exact ⟨j, by omega, rest'⟩


/-- In the overflow-free range of a non-negative width the outer loop runs to the
end without a panic and sends exactly the matching lines, in file order. -/
theorem scanLines_complete (path : String) (patterns : List Pattern) (lines : List String)
    (c : Int) (hc0 : 0 ≤ c) (hc : (lines.length : Int) + c < 9223372036854775808) :
    ∀ (rest : List String) (i : Nat), lines.drop i = rest →
      (scanLines path patterns lines c i rest).panicked = false ∧
      (scanLines path patterns lines c i rest).emitted.map (fun m => (m.LineNum, m.Line)) =
        ((rest.enumFrom i).filter (fun p => patterns.any (fun re => re p.2))).map
          (fun p => ((p.1 : Int) + 1, p.2)) := by
  intro rest
  induction rest with
  | nil => intro i _; simp [scanLines]
  | cons line rest ih =>
    intro i hdrop
    obtain ⟨hlt, _, hdrop'⟩ := drop_cons_facts lines rest line i hdrop
    obtain ⟨ih1, ih2⟩ := ih (i + 1) hdrop'
    have hw := contextWindow_of_nonneg lines i c (by omega) hlt hc0 (by omega)
    rw [if_pos (by omega)] at hw
    unfold scanLines
    rw [scanPatterns_eq, hw]
    by_cases hany : patterns.any (fun re => re line) = true
    · rw [if_pos hany]
      simp only [List.enumFrom_cons, List.map_cons]
      rw [List.filter_cons_of_pos (by simpa using hany)]
      exact ⟨ih1, by rw [List.map_cons, ih2]⟩
    · rw [if_neg hany]
      simp only [List.enumFrom_cons]
      rw [List.filter_cons_of_neg (by simpa using hany)]
      exact ⟨ih1, ih2⟩


/-- The row the context loop prints at index `i + k` is the `k`-th row from `i`. -/
theorem writeContext_getElem? (lineNum : Int) (ctxLen : Nat) :
    ∀ (ctx : List String) (i k : Nat),
      (writeContext lineNum ctxLen i ctx)[k]? =
        (ctx[k]?).map (contextRow lineNum ctxLen (i + k)) := by
  intro ctx
  induction ctx with
  | nil => intro i k; simp [writeContext]
  | cons t rest ih =>
    intro i k
    cases k with
    | zero => simp [writeContext]
    | succ k =>
      simp only [writeContext, List.getElem?_cons_succ]
      rw [ih (i + 1) k, show i + 1 + k = i + (k + 1) by omega]

theorem writeContext_length (lineNum : Int) (ctxLen : Nat) :
    ∀ (ctx : List String) (i : Nat), (writeContext lineNum ctxLen i ctx).length = ctx.length := by
  intro ctx
  induction ctx with
  | nil => intro i; simp [writeContext]
  | cons t rest ih => intro i; simp [writeContext, ih]

/-- Without overflow the loop body prints `max(1, lineNum - ctxLen/2 + i)` and
marks the row when that number equals `lineNum`. -/
theorem contextRow_of_inRange (lineNum : Int) (ctxLen i : Nat) (ctxLine : String)
    (h1 : -9223372036854775808 ≤ lineNum - (ctxLen : Int) / 2)
    (h2 : lineNum - (ctxLen : Int) / 2 < 9223372036854775808)
    (h3 : -9223372036854775808 ≤ lineNum - (ctxLen : Int) / 2 + (i : Int))
    (h4 : lineNum - (ctxLen : Int) / 2 + (i : Int) < 9223372036854775808) :
    contextRow lineNum ctxLen i ctxLine =
      { pfx := if max 1 (lineNum - (ctxLen : Int) / 2 + (i : Int)) = lineNum
          then ">>  " else "    ",
        num := max 1 (lineNum - (ctxLen : Int) / 2 + (i : Int)),
        text := ctxLine } := by
  unfold contextRow
  rw [wrap64_of_inRange _ h1 h2, wrap64_of_inRange _ h3 h4]
  have hmax : (if lineNum - (ctxLen : Int) / 2 + (i : Int) < 1 then (1 : Int)
      else lineNum - (ctxLen : Int) / 2 + (i : Int))
      = max 1 (lineNum - (ctxLen : Int) / 2 + (i : Int)) := by split_ifs <;> omega
  simp only [hmax]

/-! ## The context window of a match (C1) -/

/-- C1: for a file of `N` lines (`N < 2^63`, a slice length), a context width
`0 ≤ c` (`c < 2^63`, a value of Go's `int`) and every `Match` that `searchFile`
sends, with `L` its line number: `1 ≤ L ≤ N`, line `L` of the file is the match's `Line`,
the context is the contiguous run of file lines `L - min(c, L-1) .. L + min(c, N-L)`,
that is exactly `min(c, L-1)` lines before the matched line, the matched line, and
exactly `min(c, N-L)` lines after it; its length is at most `2c+1` and equals
`2c+1` exactly when `c ≤ L-1` and `c ≤ N-L`. -/
theorem searchFile_context_window (path : String) (lines : List String)
    (patterns : List Pattern) (caseSensitive : Bool) (c : Int) (m : Match)
    (hN : (lines.length : Int) < 9223372036854775808)
    (hc0 : 0 ≤ c) (hc : c < 9223372036854775808)
    (hm : m ∈ (searchFile path (some lines) patterns caseSensitive c).emitted) :
    ∃ L : Nat, m.LineNum = (L : Int) ∧ 1 ≤ L ∧ L ≤ lines.length ∧
      lines[L - 1]? = some m.Line ∧
      m.Context = (lines.drop (L - 1 - min c.toNat (L - 1))).take
        (min c.toNat (L - 1) + 1 + min c.toNat (lines.length - L)) ∧
      m.Context = (lines.drop (L - 1 - min c.toNat (L - 1))).take (min c.toNat (L - 1))
        ++ m.Line :: (lines.drop L).take (min c.toNat (lines.length - L)) ∧
      ((lines.drop (L - 1 - min c.toNat (L - 1))).take (min c.toNat (L - 1))).length
        = min c.toNat (L - 1) ∧
      ((lines.drop L).take (min c.toNat (lines.length - L))).length
        = min c.toNat (lines.length - L) ∧
      (m.Context.length : Int) ≤ 2 * c + 1 ∧
      ((m.Context.length : Int) = 2 * c + 1 ↔
        c ≤ (L : Int) - 1 ∧ c ≤ (lines.length : Int) - (L : Int)) := by
  obtain ⟨j, _, hj, hget, hnum, hw, _, _⟩ :=
    scanLines_mem path patterns lines c m lines 0 (by simp) hm
  have h := contextWindow_of_nonneg lines j c hN hj hc0 hc
  rw [hw] at h
  by_cases hov : (j : Int) + c + 1 < 9223372036854775808
  · rw [if_pos hov] at h
    have hctx : m.Context = (lines.drop (j - min c.toNat j)).take
        (min c.toNat j + 1 + min c.toNat (lines.length - 1 - j)) := Option.some.inj h
    have hsub : lines.length - (j + 1) = lines.length - 1 - j := by omega
    have hlen : m.Context.length = min c.toNat j + 1 + min c.toNat (lines.length - 1 - j) := by
      rw [hctx, List.length_take, List.length_drop]; omega
    have hline : lines[j] = m.Line := by
      rw [List.getElem?_eq_getElem hj] at hget; exact Option.some.inj hget
    refine ⟨j + 1, by rw [hnum]; push_cast; rfl, by omega, by omega, ?_, ?_, ?_, ?_, ?_, ?_, ?_⟩
    · simpa using hget
    · rw [Nat.add_sub_cancel, hsub]; exact hctx
    · rw [Nat.add_sub_cancel, hsub, hctx, Nat.add_assoc, List.take_add, List.drop_drop,
        show j - min c.toNat j + min c.toNat j = j by omega,
        List.drop_eq_getElem_cons hj, hline, Nat.add_comm 1, List.take_succ_cons]
    · rw [Nat.add_sub_cancel, List.length_take, List.length_drop]; omega
    · rw [List.length_take, List.length_drop]; omega
    · rw [hlen]; omega
    · rw [hlen]; omega
  · rw [if_neg hov] at h
    cases h

/-- A run of C1: the match at line 2 of a three-line file with context width 1
has the whole file as its context. -/
theorem searchFile_context_window_witness :
    ({ FilePath := "a.py", LineNum := 2, Line := "# TODO", Context := ["x", "# TODO", "y"] } : Match)
        ∈ (searchFile "a.py" (some ["x", "# TODO", "y"]) [literalPattern "TODO"] false 1).emitted ∧
      ∃ L : Nat, (2 : Int) = (L : Int) ∧ 1 ≤ L ∧ L ≤ ["x", "# TODO", "y"].length ∧
        ["x", "# TODO", "y"][L - 1]? = some "# TODO" ∧
        ["x", "# TODO", "y"] = (["x", "# TODO", "y"].drop (L - 1 - min (1 : Int).toNat (L - 1))).take
          (min (1 : Int).toNat (L - 1) + 1 + min (1 : Int).toNat (["x", "# TODO", "y"].length - L)) ∧
        ["x", "# TODO", "y"] =
          (["x", "# TODO", "y"].drop (L - 1 - min (1 : Int).toNat (L - 1))).take
            (min (1 : Int).toNat (L - 1))
          ++ "# TODO" :: (["x", "# TODO", "y"].drop L).take
            (min (1 : Int).toNat (["x", "# TODO", "y"].length - L)) ∧
        ((["x", "# TODO", "y"].drop (L - 1 - min (1 : Int).toNat (L - 1))).take
          (min (1 : Int).toNat (L - 1))).length = min (1 : Int).toNat (L - 1) ∧
        ((["x", "# TODO", "y"].drop L).take
          (min (1 : Int).toNat (["x", "# TODO", "y"].length - L))).length
          = min (1 : Int).toNat (["x", "# TODO", "y"].length - L) ∧
        ((["x", "# TODO", "y"].length : Nat) : Int) ≤ 2 * 1 + 1 ∧
        (((["x", "# TODO", "y"].length : Nat) : Int) = 2 * 1 + 1 ↔
          (1 : Int) ≤ (L : Int) - 1 ∧
            (1 : Int) ≤ ((["x", "# TODO", "y"].length : Nat) : Int) - (L : Int)) :=
  ⟨by decide,
   searchFile_context_window "a.py" ["x", "# TODO", "y"] [literalPattern "TODO"] false 1
    { FilePath := "a.py", LineNum := 2, Line := "# TODO", Context := ["x", "# TODO", "y"] }
    (by decide) (by decide) (by decide) (by decide)⟩

/-! ## One match per matching line (C2) -/

/-- C2, as amended: for every file, every pattern list and every context width
`c` with `0 ≤ c` and `N + c < 2^63`, `searchFile` runs to its end without a
panic, and the (line number, line text) pairs of the matches it sends are exactly
the matching lines in file order, each once: the numbers are strictly ascending,
and line `i + 1` has a match if and only if at least one pattern matches it. -/
theorem searchFile_one_match_per_line (path : String) (lines : List String)
    (patterns : List Pattern) (caseSensitive : Bool) (c : Int)
    (hc0 : 0 ≤ c) (hc : (lines.length : Int) + c < 9223372036854775808) :
    (searchFile path (some lines) patterns caseSensitive c).panicked = false ∧
    (searchFile path (some lines) patterns caseSensitive c).emitted.map
        (fun m => (m.LineNum, m.Line)) =
      (lines.enum.filter (fun p => patterns.any (fun re => re p.2))).map
        (fun p => ((p.1 : Int) + 1, p.2)) ∧
    ((searchFile path (some lines) patterns caseSensitive c).emitted.map
        (fun m => m.LineNum)).Pairwise (fun a b => a < b) ∧
    (∀ (i : Nat) (line : String), lines[i]? = some line →
      (((i : Int) + 1, line) ∈ (searchFile path (some lines) patterns caseSensitive c).emitted.map
          (fun m => (m.LineNum, m.Line)) ↔ ∃ re ∈ patterns, re line = true)) ∧
    (∀ m ∈ (searchFile path (some lines) patterns caseSensitive c).emitted,
      ∃ i : Nat, m.LineNum = (i : Int) + 1 ∧ lines[i]? = some m.Line) := by
  obtain ⟨h1, h2'⟩ := scanLines_complete path patterns lines c hc0 hc lines 0 (by simp)
  have h2 : (searchFile path (some lines) patterns caseSensitive c).emitted.map
      (fun m => (m.LineNum, m.Line)) =
      (lines.enum.filter (fun p => patterns.any (fun re => re p.2))).map
        (fun p => ((p.1 : Int) + 1, p.2)) := h2'
  have hfst : (searchFile path (some lines) patterns caseSensitive c).emitted.map
      (fun m => m.LineNum) =
      ((lines.enum.filter (fun p => patterns.any (fun re => re p.2))).map
        (fun p => ((p.1 : Int) + 1, p.2))).map Prod.fst := by
    rw [← h2, List.map_map]
    rfl
  refine ⟨h1, h2, ?_, ?_, ?_⟩
  · rw [hfst, List.map_map, List.pairwise_map]
    apply List.Pairwise.filter
    have hp := List.pairwise_lt_range lines.length
    rw [← List.enum_map_fst, List.pairwise_map] at hp
    exact hp.imp (fun h => by simp only [Function.comp]; omega)
  · intro i line hget
    rw [h2]
    simp only [List.mem_map, List.mem_filter, List.any_eq_true, Prod.mk.injEq, Prod.exists]
    constructor
    · rintro ⟨k, l, ⟨_, hre⟩, _, rfl⟩
      exact hre
    · intro hre
      exact ⟨i, line, ⟨List.mk_mem_enum_iff_getElem?.mpr hget, hre⟩, rfl, rfl⟩
  · intro m hm
    obtain ⟨j, _, _, hget, hnum, _⟩ := scanLines_mem path patterns lines c m lines 0 (by simp) hm
    exact ⟨j, hnum, hget⟩

/-- A run of the amended C2: two of four lines match, one of them two patterns. -/
theorem searchFile_one_match_per_line_witness :
    (searchFile "a.py" (some ["x", "# TODO", "y", "TODO FIXME"])
        [literalPattern "TODO", literalPattern "FIXME"] false 1).emitted.map
        (fun m => (m.LineNum, m.Line)) = [(2, "# TODO"), (4, "TODO FIXME")] :=
  ((searchFile_one_match_per_line "a.py" ["x", "# TODO", "y", "TODO FIXME"]
    [literalPattern "TODO", literalPattern "FIXME"] false 1 (by decide) (by decide)).2.1).trans
    (by decide)

/-- C2 as stated fails outside `0 ≤ c`, `N + c < 2^63`.  With `-n -1` the slice
`lines[1:0]` panics at the first matching line, so no `Match` is sent although
line 1 matches; with `-n 9223372036854775807` the sum `i + c + 1` wraps to
`-2^63` and the slice `lines[0:-2^63]` panics in the same way. -/
theorem searchFile_negative_width_sends_nothing :
    (searchFile "a.py" (some ["TODO"]) [literalPattern "TODO"] false (-1)).emitted = [] ∧
    (searchFile "a.py" (some ["TODO"]) [literalPattern "TODO"] false (-1)).panicked = true ∧
    (["TODO"].enum.filter (fun p => [literalPattern "TODO"].any (fun re => re p.2))).map
        (fun p => ((p.1 : Int) + 1, p.2)) = [(1, "TODO")] ∧
    (searchFile "a.py" (some ["TODO"]) [literalPattern "TODO"] false (-1)).emitted.map
        (fun m => (m.LineNum, m.Line)) ≠
      (["TODO"].enum.filter (fun p => [literalPattern "TODO"].any (fun re => re p.2))).map
        (fun p => ((p.1 : Int) + 1, p.2)) ∧
    (searchFile "a.py" (some ["TODO"]) [literalPattern "TODO"] false
        9223372036854775807).emitted = [] ∧
    (searchFile "a.py" (some ["TODO"]) [literalPattern "TODO"] false
        9223372036854775807).panicked = true := by
  decide

/-! ## Validity of the slice bounds (C9) -/

/-- C9: for a line index `i < N` and a width `c` for which `i - c` and
`i + c + 1` stay inside the 64-bit range, the bounds `searchFile` computes are
`start = max(0, i - c)` and `end = min(N, i + c + 1)`; they satisfy
`0 ≤ start ≤ end ≤ N` (the slice does not panic) if and only if `0 ≤ c`; for
`0 ≤ c` also `start ≤ i < end`; for `c < 0` always `end < start`. -/
theorem window_bounds_valid_iff (lines : List String) (i : Nat) (c : Int)
    (hi : i < lines.length)
    (hlo : -9223372036854775808 ≤ (i : Int) - c ∧ (i : Int) - c < 9223372036854775808)
    (hhi : -9223372036854775808 ≤ (i : Int) + c + 1 ∧ (i : Int) + c + 1 < 9223372036854775808) :
    windowStart i c = max 0 ((i : Int) - c) ∧
    windowEnd lines.length i c = min (lines.length : Int) ((i : Int) + c + 1) ∧
    ((0 ≤ windowStart i c ∧ windowStart i c ≤ windowEnd lines.length i c ∧
        windowEnd lines.length i c ≤ (lines.length : Int)) ↔ 0 ≤ c) ∧
    ((contextWindow lines i c).isSome = true ↔ 0 ≤ c) ∧
    (0 ≤ c → windowStart i c ≤ (i : Int) ∧ (i : Int) < windowEnd lines.length i c) ∧
    (c < 0 → windowEnd lines.length i c < windowStart i c) := by
  have hs : windowStart i c = max 0 ((i : Int) - c) := by
    unfold windowStart
    rw [wrap64_of_inRange _ hlo.1 hlo.2]
    simp only []
    split_ifs <;> omega
  have he : windowEnd lines.length i c = min (lines.length : Int) ((i : Int) + c + 1) := by
    unfold windowEnd
    rw [show wrap64 (wrap64 ((i : Int) + c) + 1) = (i : Int) + c + 1 by unfold wrap64; omega]
    simp only []
    split_ifs <;> omega
  have hvalid : (0 ≤ windowStart i c ∧ windowStart i c ≤ windowEnd lines.length i c ∧
      windowEnd lines.length i c ≤ (lines.length : Int)) ↔ 0 ≤ c := by
    rw [hs, he]; omega
  refine ⟨hs, he, hvalid, ?_, ?_, ?_⟩
  · rw [← hvalid]
    unfold contextWindow sliceLines
    split_ifs with h
    · simpa using h
    · simpa using h
  · intro h; rw [hs, he]; omega
  · intro h; rw [hs, he]; omega

/-- A run of C9: line 1 of a two-line file with width 1. -/
theorem window_bounds_valid_iff_witness :
    windowStart 0 1 = max 0 (((0 : Nat) : Int) - 1) ∧
    windowEnd ["TODO", "b"].length 0 1 = min (["TODO", "b"].length : Int) (((0 : Nat) : Int) + 1 + 1) ∧
    ((0 ≤ windowStart 0 1 ∧ windowStart 0 1 ≤ windowEnd ["TODO", "b"].length 0 1 ∧
        windowEnd ["TODO", "b"].length 0 1 ≤ (["TODO", "b"].length : Int)) ↔ (0 : Int) ≤ 1) ∧
    ((contextWindow ["TODO", "b"] 0 1).isSome = true ↔ (0 : Int) ≤ 1) ∧
    ((0 : Int) ≤ 1 → windowStart 0 1 ≤ ((0 : Nat) : Int) ∧
      ((0 : Nat) : Int) < windowEnd ["TODO", "b"].length 0 1) ∧
    ((1 : Int) < 0 → windowEnd ["TODO", "b"].length 0 1 < windowStart 0 1) :=
  window_bounds_valid_iff ["TODO", "b"] 0 1 (by decide) (by decide) (by decide)


/-! ## Rendering of a window that no file edge clips (C10) -/

/-- C10: for a `Match` sent by `searchFile` with width `0 ≤ c` whose window is not
clipped (`c ≤ L - 1` and `c ≤ N - L`; as `1 ≤ L ≤ N`, the width `c = 0` always
qualifies), `writeMatches` prints `2c+1` rows; row `k`
carries the number `L - c + k`, which is the 1-based number of the file line whose
text it shows, and the `">>  "` marker exactly when `k = c`; row `c` shows the
matched line with number `L`. -/
theorem contextRows_unclipped (path : String) (lines : List String)
    (patterns : List Pattern) (caseSensitive : Bool) (c : Int) (m : Match)
    (hN : (lines.length : Int) < 9223372036854775808) (hc0 : 0 ≤ c)
    (hm : m ∈ (searchFile path (some lines) patterns caseSensitive c).emitted)
    (hstart : c ≤ m.LineNum - 1) (hend : c ≤ (lines.length : Int) - m.LineNum) :
    (0 ≤ m.LineNum - 1 ∧ 0 ≤ (lines.length : Int) - m.LineNum) ∧
    ((contextRows m).length : Int) = 2 * c + 1 ∧
    (∀ k : Nat, (k : Int) ≤ 2 * c →
      ∃ text : String, lines[(m.LineNum - c + (k : Int) - 1).toNat]? = some text ∧
        (contextRows m)[k]? = some
          { pfx := if (k : Int) = c then ">>  " else "    ",
            num := m.LineNum - c + (k : Int),
            text := text }) ∧
    (contextRows m)[c.toNat]? = some { pfx := ">>  ", num := m.LineNum, text := m.Line } ∧
    lines[(m.LineNum - 1).toNat]? = some m.Line := by
  obtain ⟨j, _, hj, hget, hnum, hw, _, _⟩ :=
    scanLines_mem path patterns lines c m lines 0 (by simp) hm
  have h := contextWindow_of_nonneg lines j c hN hj hc0 (by omega)
  rw [hw, if_pos (by omega)] at h
  have hctx : m.Context = (lines.drop (j - min c.toNat j)).take
      (min c.toNat j + 1 + min c.toNat (lines.length - 1 - j)) := Option.some.inj h
  have hlen : m.Context.length = 2 * c.toNat + 1 := by
    rw [hctx, List.length_take, List.length_drop]; omega
  have hrow : ∀ k : Nat, (k : Int) ≤ 2 * c →
      (contextRows m)[k]? = (lines[j - c.toNat + k]?).map (fun text =>
        ({ pfx := if (k : Int) = c then ">>  " else "    ",
           num := m.LineNum - c + (k : Int),
           text := text } : Row)) := by
    intro k hk
    have hk' : m.Context[k]? = lines[j - c.toNat + k]? := by
      rw [hctx, List.getElem?_take, if_pos (by omega), List.getElem?_drop,
        show j - min c.toNat j + k = j - c.toNat + k by omega]
    unfold contextRows
    rw [writeContext_getElem?, Nat.zero_add, hk']
    congr 1
    funext text
    rw [contextRow_of_inRange _ _ _ _ (by rw [hlen, hnum]; omega) (by rw [hlen, hnum]; omega)
      (by rw [hlen, hnum]; omega) (by rw [hlen, hnum]; omega)]
    have hnumk : max 1 (m.LineNum - (m.Context.length : Int) / 2 + (k : Int))
        = m.LineNum - c + (k : Int) := by
      rw [hlen, hnum]; omega
    rw [hnumk]
    congr 1
    by_cases hkc : (k : Int) = c
    · rw [if_pos hkc, if_pos (by omega)]
    · rw [if_neg hkc, if_neg (by omega)]
  refine ⟨by omega, by rw [contextRows, writeContext_length, hlen]; omega, ?_, ?_, ?_⟩
  · intro k hk
    have hlt : j - c.toNat + k < lines.length := by omega
    refine ⟨lines[j - c.toNat + k], ?_, ?_⟩
    · rw [show (m.LineNum - c + (k : Int) - 1).toNat = j - c.toNat + k by rw [hnum]; omega,
        List.getElem?_eq_getElem hlt]
    · rw [hrow k hk, List.getElem?_eq_getElem hlt]; rfl
  · rw [hrow c.toNat (by omega), show j - c.toNat + c.toNat = j by omega, hget]
    simp only [Option.map_some']
    rw [if_pos (by omega)]
    congr 2
    omega
  · rw [show (m.LineNum - 1).toNat = j by rw [hnum]; omega]; exact hget

/-- A run of C10: line 3 of a four-line file with width 1 prints lines 2, 3, 4
and marks line 3. -/
theorem contextRows_unclipped_witness :
    contextRows (Match.mk "a.py" 3 "# TODO fix" ["x = 1", "# TODO fix", "y = 2"]) =
      [{ pfx := "    ", num := 2, text := "x = 1" },
       { pfx := ">>  ", num := 3, text := "# TODO fix" },
       { pfx := "    ", num := 4, text := "y = 2" }] ∧
    (contextRows (Match.mk "a.py" 3 "# TODO fix" ["x = 1", "# TODO fix", "y = 2"]))[(1 : Int).toNat]? =
      some { pfx := ">>  ", num := 3, text := "# TODO fix" } :=
  ⟨by decide,
   (contextRows_unclipped "a.py" ["import os", "x = 1", "# TODO fix", "y = 2"]
    [literalPattern "TODO"] false 1
    (Match.mk "a.py" 3 "# TODO fix" ["x = 1", "# TODO fix", "y = 2"])
    (by decide) (by decide) (by decide) (by decide) (by decide)).2.2.2.1⟩

/-! ## Rendering of a window clipped by a file edge (C3, C4, C5) -/

/-- C3 fails on the code.  A match on line 1 of a two-line file with width 1: both
printed rows carry the `">>  "` marker.  A match on line 5 of a five-line file
with width 2: the marker is on the row showing file line 4 and the matched line is
printed unmarked. -/
theorem contextRows_marker_at_file_edge :
    (searchFile "a.py" (some ["# TODO", "x"]) [literalPattern "TODO"] false 1).emitted.map
        contextRows =
      [[{ pfx := ">>  ", num := 1, text := "# TODO" },
        { pfx := ">>  ", num := 1, text := "x" }]] ∧
    (searchFile "a.py" (some ["a", "b", "c", "d", "# TODO"]) [literalPattern "TODO"] false 2).emitted
      = [{ FilePath := "a.py", LineNum := 5, Line := "# TODO", Context := ["c", "d", "# TODO"] }] ∧
    (searchFile "a.py" (some ["a", "b", "c", "d", "# TODO"]) [literalPattern "TODO"]
        false 2).emitted.map contextRows =
      [[{ pfx := "    ", num := 4, text := "c" },
        { pfx := ">>  ", num := 5, text := "d" },
        { pfx := "    ", num := 6, text := "# TODO" }]] := by
  decide

/-- C4 fails on the code.  For the match on line 5 of a five-line file with width
2 the context is file lines 3, 4, 5 (`max(1, L - c) + k` for `k = 0, 1, 2`), but
the printed numbers are 4, 5, 6 and the matched line is printed with 6.  For the
match on line 1 of a two-line file with width 1 the printed numbers are 1, 1. -/
theorem contextRows_numbers_at_file_edge :
    (searchFile "a.py" (some ["a", "b", "c", "d", "# TODO"]) [literalPattern "TODO"]
        false 2).emitted.map (fun m => (contextRows m).map (fun r => (r.num, r.text))) =
      [[(4, "c"), (5, "d"), (6, "# TODO")]] ∧
    (List.range 3).map (fun k => max (1 : Int) (5 - 2) + (k : Int)) = [3, 4, 5] ∧
    (searchFile "a.py" (some ["# TODO", "x"]) [literalPattern "TODO"]
        false 1).emitted.map (fun m => (contextRows m).map (fun r => (r.num, r.text))) =
      [[(1, "# TODO"), (1, "x")]] ∧
    (List.range 2).map (fun k => max (1 : Int) (1 - 1) + (k : Int)) = [1, 2] := by
  decide

/-- C5 fails on the code.  For a `Match` with line number 1 and a context of two
lines the start number is `s = max(1, 1 - 2/2) = 1`, so consecutive numbering
gives 1, 2; the code floors each row's number on its own and prints 1, 1. -/
theorem contextRows_floor_per_row :
    (contextRows (Match.mk "a.py" 1 "# TODO" ["# TODO", "x"])).map (fun r => r.num) = [1, 1] ∧
    (List.range 2).map (fun k => max (1 : Int) (1 - ((2 : Nat) : Int) / 2) + (k : Int)) = [1, 2] := by
  decide

/-! ## The extension filter of the walk (C6) -/

theorem isFileTypeLoop_iff (ext : String) (types : List String) :
    isFileTypeLoop ext types = true ↔ ext ∈ types := by
  induction types with
  | nil => simp [isFileTypeLoop]
  | cons t rest ih =>
    unfold isFileTypeLoop
    by_cases h : ext = t
    · simp [h]
    · simp [h, ih]

/-- The backwards scan of `filepath.Ext`: either no dot occurs before the first
separator and the result is empty, or the scan stops at the first dot it meets and
returns everything from that dot on. -/
theorem extLoop_spec : ∀ (rev acc : List Char),
    (extLoop rev acc = [] ∧ ∀ a b, rev = a ++ '.' :: b → '/' ∈ a) ∨
    (∃ a b, rev = a ++ '.' :: b ∧ '.' ∉ a ∧ '/' ∉ a ∧
      extLoop rev acc = '.' :: (a.reverse ++ acc)) := by
  intro rev
  induction rev with
  | nil =>
    intro acc
    left
    refine ⟨rfl, ?_⟩
    intro a b h
    simp at h
  | cons ch before ih =>
    intro acc
    unfold extLoop
    by_cases hsep : ch = '/'
    · left
      rw [if_pos hsep]
      refine ⟨rfl, ?_⟩
      intro a b h
      cases a with
      | nil =>
        simp only [List.nil_append, List.cons.injEq] at h
        rw [hsep] at h
        exact absurd h.1 (by decide)
      | cons x a =>
        simp only [List.cons_append, List.cons.injEq] at h
        rw [← h.1, hsep]
        exact List.mem_cons_self _ _
    · rw [if_neg hsep]
      by_cases hdot : ch = '.'
      · right
        rw [if_pos hdot]
        exact ⟨[], before, by simp [hdot], by simp, by simp, by simp⟩
      · rw [if_neg hdot]
        rcases ih (ch :: acc) with ⟨h1, h2⟩ | ⟨a, b, hab, hd, hs, hres⟩
        · left
          refine ⟨h1, ?_⟩
          intro a b h
          cases a with
          | nil =>
            simp only [List.nil_append, List.cons.injEq] at h
            exact absurd h.1 hdot
          | cons x a =>
            simp only [List.cons_append, List.cons.injEq] at h
            exact List.mem_cons_of_mem _ (h2 a b h.2)
        · right
          refine ⟨ch :: a, b, by simp [hab], ?_, ?_, ?_⟩
          · simp only [List.mem_cons, not_or]
            exact ⟨fun h => hdot h.symm, hd⟩
          · simp only [List.mem_cons, not_or]
            exact ⟨fun h => hsep h.symm, hs⟩
          · rw [hres]; simp

/-- C6: for a regular file (not a directory, no walk error) the callback starts a
scan if and only if the allow-list is empty or the path's extension is equal, as
a string, to an entry of the list.  `Ext` is empty when no dot occurs in the last
path element and otherwise the suffix starting at its last dot.  With an empty
list every file is scanned; with `[".go"]` a file is scanned iff its extension is
exactly `".go"`, so `.GO`, `.gox` and extension-less names are skipped. -/
theorem walkFn_launch_iff :
    (∀ (fileTypes : List String) (path : String),
      walkFn fileTypes path false false = WalkAction.launch ↔
        (fileTypes = [] ∨ ∃ t ∈ fileTypes, Ext path = t)) ∧
    (∀ (fileTypes : List String) (path : String),
      walkFn fileTypes path false false = WalkAction.launch ∨
      walkFn fileTypes path false false = WalkAction.skip) ∧
    (∀ path : String,
      (Ext path = "" ∧ ∀ pre suf, path.data = pre ++ '.' :: suf → '/' ∈ suf) ∨
      (∃ pre suf, path.data = pre ++ '.' :: suf ∧ '.' ∉ suf ∧ '/' ∉ suf ∧
        (Ext path).data = '.' :: suf)) ∧
    (∀ path : String, walkFn [] path false false = WalkAction.launch) ∧
    (∀ path : String, walkFn [".go"] path false false = WalkAction.launch ↔ Ext path = ".go") ∧
    (Ext "src/main.go" = ".go" ∧ walkFn [".go"] "src/main.go" false false = WalkAction.launch) ∧
    (Ext "src/MAIN.GO" = ".GO" ∧ walkFn [".go"] "src/MAIN.GO" false false = WalkAction.skip) ∧
    (Ext "src/main.gox" = ".gox" ∧ walkFn [".go"] "src/main.gox" false false = WalkAction.skip) ∧
    (Ext "src.go/Makefile" = "" ∧ walkFn [".go"] "src.go/Makefile" false false = WalkAction.skip) := by
  have hmain : ∀ (fileTypes : List String) (path : String),
      walkFn fileTypes path false false = WalkAction.launch ↔
        (fileTypes = [] ∨ ∃ t ∈ fileTypes, Ext path = t) := by
    intro fileTypes path
    cases fileTypes with
    | nil => simp [walkFn]
    | cons t rest =>
      have hiff := isFileTypeLoop_iff (Ext path) (t :: rest)
      unfold walkFn isFileType
      by_cases h : isFileTypeLoop (Ext path) (t :: rest) = true
      · have hmem := hiff.mp h
        simp only [h]
        simp only [List.length_cons, gt_iff_lt, Nat.zero_lt_succ, if_true, Bool.not_true,
          Bool.false_eq_true, if_false, true_iff]
        exact Or.inr ⟨Ext path, hmem, rfl⟩
      · have hmem : Ext path ∉ t :: rest := fun hm => h (hiff.mpr hm)
        have hf : isFileTypeLoop (Ext path) (t :: rest) = false := by
          cases hb : isFileTypeLoop (Ext path) (t :: rest) with
          | true => exact absurd hb h
          | false => rfl
        simp only [hf]
        simp only [List.length_cons, gt_iff_lt, Nat.zero_lt_succ, if_true, Bool.not_false,
          Bool.false_eq_true, if_false]
        constructor
        · intro hne
          cases hne
        · rintro (hnil | ⟨u, hu, rfl⟩)
          · cases hnil
          · exact absurd hu hmem
  refine ⟨hmain, ?_, ?_, ?_, ?_, ?_, ?_, ?_, ?_⟩
  · intro fileTypes path
    unfold walkFn
    simp only [Bool.false_eq_true, if_false]
    split_ifs <;> simp
  · intro path
    rcases extLoop_spec path.data.reverse [] with ⟨h1, h2⟩ | ⟨a, b, hab, hd, hs, hres⟩
    · left
      refine ⟨by unfold Ext; rw [h1], ?_⟩
      intro pre suf h
      have := h2 suf.reverse pre.reverse (by rw [h]; simp)
      simpa using this
    · right
      refine ⟨b.reverse, a.reverse, ?_, by simpa using hd, by simpa using hs, ?_⟩
      · have := congrArg List.reverse hab
        simpa using this
      · unfold Ext; rw [hres]; simp
  · intro path
    exact (hmain [] path).mpr (Or.inl rfl)
  · intro path
    rw [hmain]
    simp
  · decide
  · decide
  · decide
  · decide

/-! ## Pattern compilation (C7) -/

theorem preparePatterns_foldl {R : Type} (compile : String → Option R)
    (quoteMeta : String → String) (caseSensitive useRegex : Bool) :
    ∀ (words : List String) (acc : List R),
      words.foldl (preparePatternsStep compile quoteMeta caseSensitive useRegex) acc =
        acc ++ words.filterMap (fun word =>
          compile ((if caseSensitive then "" else "(?i)") ++
            (if useRegex then word else quoteMeta word))) := by
  intro words
  induction words with
  | nil => intro acc; simp
  | cons w rest ih =>
    intro acc
    rw [List.foldl_cons, ih]
    unfold preparePatternsStep
    cases caseSensitive <;>
      cases hcomp : compile ((if false = true then "" else "(?i)") ++
          (if useRegex = true then w else quoteMeta w)) <;>
      cases hcomp' : compile ((if true = true then "" else "(?i)") ++
          (if useRegex = true then w else quoteMeta w)) <;>
      simp_all [List.filterMap_cons]

/-- C7: with `regexp.Compile` a partial function on pattern strings,
`preparePatterns` is total and returns the compiled patterns of exactly the terms
whose pattern string compiles (the term in regex mode, its quoted form in literal
mode, prefixed with `"(?i)"` when case-insensitive), in input order, duplicates
kept: a term in the middle of the list contributes its compiled pattern or
nothing, between the results of the terms before and after it, and the number of
patterns is the number of compilable terms. -/
theorem preparePatterns_eq_filterMap {R : Type} (compile : String → Option R)
    (quoteMeta : String → String) (words : List String) (caseSensitive useRegex : Bool) :
    preparePatterns compile quoteMeta words caseSensitive useRegex =
      words.filterMap (fun word =>
        compile ((if caseSensitive then "" else "(?i)") ++
          (if useRegex then word else quoteMeta word))) ∧
    (preparePatterns compile quoteMeta words caseSensitive useRegex).length =
      words.countP (fun word =>
        (compile ((if caseSensitive then "" else "(?i)") ++
          (if useRegex then word else quoteMeta word))).isSome) ∧
    (∀ (before after : List String) (word : String), words = before ++ word :: after →
      preparePatterns compile quoteMeta words caseSensitive useRegex =
        preparePatterns compile quoteMeta before caseSensitive useRegex ++
        (compile ((if caseSensitive then "" else "(?i)") ++
          (if useRegex then word else quoteMeta word))).toList ++
        preparePatterns compile quoteMeta after caseSensitive useRegex) := by
  have heq : ∀ ws : List String, preparePatterns compile quoteMeta ws caseSensitive useRegex =
      ws.filterMap (fun word =>
        compile ((if caseSensitive then "" else "(?i)") ++
          (if useRegex then word else quoteMeta word))) := by
    intro ws
    unfold preparePatterns
    rw [preparePatterns_foldl]
    simp
  refine ⟨heq words, ?_, ?_⟩
  · rw [heq]
    induction words with
    | nil => simp
    | cons w rest ih =>
      rw [List.filterMap_cons, List.countP_cons]
      cases hcomp : compile ((if caseSensitive then "" else "(?i)") ++
          (if useRegex then w else quoteMeta w)) with
      | none => simp [ih]
      | some r => simp [ih]
  · intro before after word hw
    rw [heq words, heq before, heq after, hw, List.filterMap_append, List.filterMap_cons]
    cases hcomp : compile ((if caseSensitive then "" else "(?i)") ++
        (if useRegex then word else quoteMeta word)) with
    | none => simp
    | some r => simp

end GoSCASS
